import Mathlib

/-!
Verification of the FletX reactive-page layer.

Part 1 (`RxModel`) embeds the reactive state engine (`fletx.core.state`:
`ReactiveDependencyTracker`, `Reactive`, `Observer`).  That module's code is
not part of the sources studied here - only its tests and callers are - so
the definitions are modelled from the specification, as marked in each doc
comment.

Part 2 (`PageModel`) embeds `FletXPage` from `fletx/core/page.py` directly:
page lifecycle states, `_safe_callback`, `_trigger_error_handlers`,
`add_effect` / `add_cleanup`, `watch` / `watch_multiple`, and the lifecycle
methods `did_mount`, `will_unmount`, `did_unmount`, `dispose`.  The effect
manager it delegates to (`fletx.core.effects.EffectManager`) is likewise
absent from the sources and is modelled from the specification.
-/

namespace RxModel

/-- Modelled from the spec: a computation executed under the dependency
tracker.  `fletx.core.state` is missing from the sources; per the spec a
computation may read reactive values (identified here by `Nat` ids) and
produce a result.  `read rid k` reads reactive `rid` and continues with `k`
applied to the value read. -/
inductive Comp : Type where
  | ret (v : Int) : Comp
  | read (rid : Nat) (k : Int → Comp) : Comp

/-- Modelled from the spec: the tracker's stack of tracking contexts.  Each
frame accumulates the ids of the reactive values read while it was the
innermost frame (`reads are attributed to the innermost active frame
only`). -/
abbrev TrackStack := List (List Nat)

/-- Modelled from the spec: a read of reactive `rid` registers `rid` with the
innermost active tracking context; `reads performed outside any active
context are simply not recorded (no error)`.  A value already recorded is
not duplicated (the frame accumulates a set of distinct reactive values). -/
def registerRead (stk : TrackStack) (rid : Nat) : TrackStack :=
  match stk with
  | [] => []
  | frame :: rest => (if rid ∈ frame then frame else frame ++ [rid]) :: rest

/-- Modelled from the spec: running a computation against an environment
`env` (the current value of each reactive), threading the tracker stack.
Every read registers with the innermost frame and yields the current
value. -/
def runComp (env : Nat → Int) : Comp → TrackStack → Int × TrackStack
  | Comp.ret v, stk => (v, stk)
  | Comp.read rid k, stk => runComp env (k (env rid)) (registerRead stk rid)

/-- Modelled from the spec: `ReactiveDependencyTracker.track(computation)`
pushes a fresh tracking context, runs the computation, pops the context and
returns the computation's result together with the set of reactive values
read (`track(computation) -> (result, dependencySet)`). -/
def track (env : Nat → Int) (c : Comp) (stk : TrackStack) :
    (Int × List Nat) × TrackStack :=
  let out := runComp env c ([] :: stk)
  match out.2 with
  | [] => ((out.1, []), [])
  | frame :: rest => ((out.1, frame), rest)

/-- The computation of claim C1: read reactive `r` and return its value plus
one (`rx.value + 1` in `test_dependency_tracker_tracks_dependencies`). -/
def compReadPlusOne (r : Nat) : Comp :=
  Comp.read r (fun v => Comp.ret (v + 1))

/-- Modelled from the spec: the behaviour of an observer callback.  The
callbacks exercised by the reactivity tests either append the container's
current value to a `called` list (`called.append(rx.value)`) or append a
marker (`called.append(True)`, modelled as appending the current value as
well, which only matters through `invoked`). -/
inductive Act : Type where
  | appendValue : Act
  | noopAct : Act
deriving DecidableEq

/-- Modelled from the spec: a subscription in a reactive container's
subscriber set, pairing an observer id with its callback behaviour. -/
structure Sub where
  oid : Nat
  act : Act
deriving DecidableEq

/-- Modelled from the spec: a reactive container (`Reactive`) together with
the observable history needed by the tests: its current value, its
monotonically incremented version, its subscriber set in registration
order, the test's `called` list, a log of which observer ids were invoked,
and a fresh-id counter for new observers. -/
structure RxWorld where
  value : Int
  version : Nat
  subs : List Sub
  called : List Int
  invoked : List Nat
  nextId : Nat
deriving DecidableEq

/-- Modelled from the spec: `Reactive(v)` creates a container holding `v`
with no subscribers. -/
def mkReactive (v : Int) : RxWorld :=
  { value := v, version := 0, subs := [], called := [], invoked := [], nextId := 0 }

/-- Modelled from the spec: `get()` returns the current value (tracking
registration is handled by `track` above and is not exercised by these
scenarios). -/
def rxGet (w : RxWorld) : Int := w.value

/-- Modelled from the spec: invoking one observer callback: the invocation
is logged and the callback runs against the container's current value
(`called.append(rx.value)` observes the value at notification time). -/
def runSub (w : RxWorld) (s : Sub) : RxWorld :=
  let w1 := { w with invoked := w.invoked ++ [s.oid] }
  match s.act with
  | Act.appendValue => { w1 with called := w1.called ++ [w1.value] }
  | Act.noopAct => w1

/-- Modelled from the spec: the notification loop walks a snapshot of the
subscriber set taken when the write happened, and invokes a subscriber only
if it is still in the live subscriber set (`disposal during notification
must not invoke a just-disposed observer`). -/
def notifyAll (snapshot : List Sub) (w : RxWorld) : RxWorld :=
  match snapshot with
  | [] => w
  | s :: rest =>
      let w1 := if s ∈ w.subs then runSub w s else w
      notifyAll rest w1

/-- Modelled from the spec: `set(v)` (the `rx.value = v` setter) stores `v`,
increments the version, and synchronously notifies all currently-subscribed
observers in registration order.  The configured equality policy here is
the notify-on-every-write configuration, consistent with the observed
tests, which never write an unchanged value. -/
def rxSet (w : RxWorld) (v : Int) : RxWorld :=
  let w1 := { w with value := v, version := w.version + 1 }
  notifyAll w1.subs w1

/-- Modelled from the spec: `listen(callback)` creates a new observer with a
fresh id, appends it to the subscriber set, and returns it for later
disposal. -/
def listen (w : RxWorld) (a : Act) : RxWorld × Nat :=
  let o := w.nextId
  ({ w with subs := w.subs ++ [⟨o, a⟩], nextId := o + 1 }, o)

/-- Modelled from the spec: `Observer.dispose()` removes the observer from
the container's subscriber set; disposal of an already-disposed observer is
a no-op (`dispose is idempotent`). -/
def disposeObs (w : RxWorld) (o : Nat) : RxWorld :=
  { w with subs := w.subs.filter (fun s => s.oid ≠ o) }

/-- Number of times observer `o` has been invoked so far. -/
def invokedCount (w : RxWorld) (o : Nat) : Nat := w.invoked.count o

end RxModel


namespace PageModel

/-- `PageState` from `fletx/core/page.py`: the page lifecycle states. -/
inductive PageState : Type where
  | initializing : PageState
  | mounted : PageState
  | active : PageState
  | inactive : PageState
  | unmounting : PageState
  | disposed : PageState
deriving DecidableEq

/-- Observable events of a page run: effect bodies running or raising,
cleanup functions running, observers being disposed, watched callbacks
being invoked by `_safe_callback`, the error log and error handlers, the
`watch` warning for non-reactive objects, lifecycle hooks, and the calls
into the effect manager. -/
inductive PEvent : Type where
  | bodyRun (n : Nat) : PEvent
  | bodyRaised (n : Nat) : PEvent
  | cleanupRun (n : Nat) : PEvent
  | obsDisposed (o : Nat) : PEvent
  | cbRun (n : Nat) : PEvent
  | errorLogged : PEvent
  | handlerRun (n : Nat) : PEvent
  | handlerRaised (n : Nat) : PEvent
  | warnNotReactive : PEvent
  | onInitCalled : PEvent
  | onDestroyCalled : PEvent
  | runEffectsInvoked : PEvent
  | managerDisposeInvoked : PEvent
deriving DecidableEq

/-- A cleanup function passed through `add_cleanup`: either a user cleanup
function (identified by a number) or the `observer.dispose()` closure
registered by `watch`. -/
inductive CleanupDesc : Type where
  | userCleanup (n : Nat) : CleanupDesc
  | obsDispose (o : Nat) : CleanupDesc
deriving DecidableEq

/-- The two shapes of effect body produced by the page layer.
`enhancedUser n raises creg` is the `enhanced_effect` closure built by
`add_effect`: it runs the user's `effect_fn` (number `n`, which may raise),
then - only if `effect_fn` returned normally - registers `cleanup_fn`
through `add_cleanup`; it returns `effect_fn`'s result, which carries no
cleanup.  `enhancedConst c` is the `enhanced_effect` built by
`add_cleanup(c)` wrapping `lambda: cleanup_fn`: running it returns the
cleanup function `c` itself. -/
inductive PageBody : Type where
  | enhancedUser (n : Nat) (raises : Bool) (creg : Option CleanupDesc) : PageBody
  | enhancedConst (c : CleanupDesc) : PageBody
deriving DecidableEq

/-- Modelled from the spec: one effect record held by the effect manager:
its body, its explicit dependency list (`None` means inferred), the cleanup
captured from the body's most recent run, and whether the effect has been
made inert by disposal (`disposed (final cleanup invoked, then inert)`). -/
structure Effect where
  body : PageBody
  deps : Option (List Nat)
  cleanup : Option CleanupDesc
  inert : Bool
deriving DecidableEq

/-- The state of one `FletXPage` together with its effect manager:
`pstate` is `_state`; `started` / `pending` / `effectsDone` model the
effect manager (pending effects are those registered before the bulk
`run()`); `subs` is `_reactive_subscriptions` (observer ids); `handlers`
is `_event_handlers['error']` (handler id paired with whether it raises);
`events` is the observable history; `nextObs` generates observer ids.
Controllers, keyboard shortcuts and gestures play no part in the claims
and are not modelled; the built-in keyboard handler registered in
`__init__` produces none of the events above when no Flet page instance is
attached. -/
structure PageSt where
  pstate : PageState
  started : Bool
  pending : List (PageBody × Option (List Nat))
  effectsDone : List Effect
  subs : List Nat
  handlers : List (Nat × Bool)
  events : List PEvent
  nextObs : Nat
deriving DecidableEq

/-- A freshly constructed page: `__init__` sets `_state = INITIALIZING`
with an empty effect manager, no subscriptions and no handlers. -/
def freshPage : PageSt :=
  { pstate := PageState.initializing, started := false, pending := [],
    effectsDone := [], subs := [], handlers := [], events := [], nextObs := 0 }

/-- `is_mounted` from `page.py`: `self._state in [PageState.MOUNTED,
PageState.ACTIVE]`. -/
def isMountedB (st : PageSt) : Bool :=
  match st.pstate with
  | PageState.mounted => true
  | PageState.active => true
  | _ => false

/-- Modelled from the spec: invoking one cleanup function: a user cleanup
logs its run; the `observer.dispose()` closure from `watch` disposes the
observer. -/
def execCleanup (st : PageSt) (c : CleanupDesc) : PageSt :=
  match c with
  | CleanupDesc.userCleanup n => { st with events := st.events ++ [PEvent.cleanupRun n] }
  | CleanupDesc.obsDispose o => { st with events := st.events ++ [PEvent.obsDisposed o] }

/-- Running one effect body (the manager is started whenever a body runs).
`enhancedConst c` returns the cleanup `c` for the manager to capture.
`enhancedUser n raises creg` runs the user's `effect_fn`: if it raises,
the manager's invocation boundary catches the error (spec section 7) and
`add_cleanup` is never reached; if it returns normally and a `cleanup_fn`
was supplied, `add_cleanup(cleanup_fn)` registers a new `enhancedConst`
effect, which - the manager being started - runs immediately and captures
the cleanup. -/
def runBody (st : PageSt) (b : PageBody) : PageSt × Option CleanupDesc :=
  match b with
  | PageBody.enhancedConst c => (st, some c)
  | PageBody.enhancedUser n raises creg =>
      if raises then
        ({ st with events := st.events ++ [PEvent.bodyRaised n] }, none)
      else
        let st1 := { st with events := st.events ++ [PEvent.bodyRun n] }
        match creg with
        | none => (st1, none)
        | some c =>
            if st1.started then
              ({ st1 with effectsDone := st1.effectsDone ++
                  [⟨PageBody.enhancedConst c, some [], some c, false⟩] }, none)
            else
              ({ st1 with pending := st1.pending ++
                  [(PageBody.enhancedConst c, some [])] }, none)

/-- Modelled from the spec: `EffectManager.useEffect(body, deps)`
(`fletx.core.effects` is missing from the sources).  Before the owner's
bulk `run()` the effect is queued; afterwards registration runs the body
immediately (`register(body, ...) runs body immediately`) and captures the
cleanup it returns. -/
def useEffect (st : PageSt) (b : PageBody) (deps : Option (List Nat)) : PageSt :=
  if st.started then
    let p := runBody st b
    { p.1 with effectsDone := p.1.effectsDone ++ [⟨b, deps, p.2, false⟩] }
  else
    { st with pending := st.pending ++ [(b, deps)] }

/-- Modelled from the spec: the loop inside the manager's bulk `run()`:
run each pending effect body in registration order, capturing the cleanup
each returns. -/
def runPending : List (PageBody × Option (List Nat)) → PageSt → PageSt
  | [], st => st
  | (b, deps) :: rest, st =>
      let p := runBody st b
      runPending rest
        { p.1 with effectsDone := p.1.effectsDone ++ [⟨b, deps, p.2, false⟩] }

/-- Modelled from the spec: `EffectManager.runEffects()` (bulk `run()`,
`run all pending effects, typically at mount`): mark the manager started
and run every queued effect. -/
def runEffectsM (st : PageSt) : PageSt :=
  runPending st.pending { st with started := true, pending := [] }

/-- Modelled from the spec: the loop inside the manager's bulk `dispose()`:
for each effect not yet inert, invoke its final cleanup (if any) and mark
it inert, so a repeated dispose invokes nothing again. -/
def disposeEffects : List Effect → PageSt → PageSt × List Effect
  | [], st => (st, [])
  | e :: rest, st =>
      let st1 := if e.inert then st else
        match e.cleanup with
        | some c => execCleanup st c
        | none => st
      let p := disposeEffects rest st1
      (p.1, { e with inert := true } :: p.2)

/-- Modelled from the spec: `EffectManager.dispose()` (bulk tear-down,
`typically at unmount`). -/
def disposeManagerM (st : PageSt) : PageSt :=
  let p := disposeEffects st.effectsDone st
  { p.1 with effectsDone := p.2 }

/-- `FletXPage.add_effect(effect_fn, dependencies, cleanup_fn)`: wraps the
user's effect in `enhanced_effect` and hands it to
`self._effects.useEffect(enhanced_effect, dependencies)`. -/
def addEffect (st : PageSt) (n : Nat) (raises : Bool)
    (creg : Option CleanupDesc) (deps : Option (List Nat)) : PageSt :=
  useEffect st (PageBody.enhancedUser n raises creg) deps

/-- `FletXPage.add_cleanup(cleanup_fn)`: `self.add_effect(lambda:
cleanup_fn, [])` - an effect with empty dependency list whose body returns
the cleanup function. -/
def addCleanup (st : PageSt) (c : CleanupDesc) : PageSt :=
  useEffect st (PageBody.enhancedConst c) (some [])

end PageModel

namespace PageModel

/-- A callback handed to `watch`: its id and whether invoking it raises. -/
structure Cb where
  cid : Nat
  raises : Bool
deriving DecidableEq

/-- Invoking a watched callback: the invocation is logged as `cbRun` and the
outcome is either normal return or a raised exception. -/
def invokeCb (st : PageSt) (cb : Cb) : PageSt × Except Unit Unit :=
  ({ st with events := st.events ++ [PEvent.cbRun cb.cid] },
   if cb.raises then Except.error () else Except.ok ())

/-- The per-handler events produced by `_trigger_error_handlers`: every
registered handler is invoked; one that raises has its own exception caught
and logged in the inner `try`/`except`, and iteration continues. -/
def handlerEvents : List (Nat × Bool) → List PEvent
  | [] => []
  | h :: rest =>
      PEvent.handlerRun h.1 ::
        ((if h.2 then [PEvent.handlerRaised h.1] else []) ++ handlerEvents rest)

/-- `FletXPage._trigger_error_handlers(error)`: loop over
`self._event_handlers['error']`, invoking each handler inside its own
`try`/`except`. -/
def triggerErrorHandlers (st : PageSt) : PageSt :=
  { st with events := st.events ++ handlerEvents st.handlers }

/-- `FletXPage._safe_callback(callback)`: if `self.is_mounted`, invoke the
callback inside `try`/`except`; on an exception, log it and trigger the
error handlers, returning `None`; when not mounted, do nothing and return
`None`. -/
def safeCallback (st : PageSt) (cb : Cb) : PageSt × Option Unit :=
  if isMountedB st then
    let p := invokeCb st cb
    match p.2 with
    | Except.ok _ => (p.1, some ())
    | Except.error _ =>
        let st1 := { p.1 with events := p.1.events ++ [PEvent.errorLogged] }
        (triggerErrorHandlers st1, none)
  else (st, none)

/-- An object passed to `watch`: all that `watch` inspects is whether it
exposes a `listen` attribute (`hasattr(reactive_obj, 'listen')`). -/
structure WObj where
  hasListen : Bool
deriving DecidableEq

/-- `FletXPage.watch(reactive_obj, callback, immediate)`: if the object
exposes `listen`, optionally fire the callback immediately through
`_safe_callback`, subscribe a new observer via `listen`, record it in
`_reactive_subscriptions`, register a cleanup that disposes the observer,
and return the observer; otherwise log a warning and return `None`. -/
def watch (st : PageSt) (obj : WObj) (cb : Cb) (imm : Bool) :
    PageSt × Option Nat :=
  if obj.hasListen then
    let st1 := if imm then (safeCallback st cb).1 else st
    let o := st1.nextObs
    let st2 := { st1 with nextObs := o + 1, subs := st1.subs ++ [o] }
    (addCleanup st2 (CleanupDesc.obsDispose o), some o)
  else
    ({ st with events := st.events ++ [PEvent.warnNotReactive] }, none)

/-- The loop body of `FletXPage.watch_multiple`: each object is watched
with `immediate and len(observers) == 0`, and only non-`None` observers
are collected. -/
def watchMultipleGo (cb : Cb) (imm : Bool) :
    List WObj → PageSt → List Nat → PageSt × List Nat
  | [], st, acc => (st, acc)
  | obj :: rest, st, acc =>
      let p := watch st obj cb (imm && acc.isEmpty)
      match p.2 with
      | some o => watchMultipleGo cb imm rest p.1 (acc ++ [o])
      | none => watchMultipleGo cb imm rest p.1 acc

/-- `FletXPage.watch_multiple(reactive_objects, callback, immediate)`. -/
def watchMultiple (st : PageSt) (objs : List WObj) (cb : Cb) (imm : Bool) :
    PageSt × List Nat :=
  watchMultipleGo cb imm objs st []

/-- `FletXPage.before_on_init()`: set `_state = ACTIVE` and call the
`on_init` hook. -/
def beforeOnInit (st : PageSt) : PageSt :=
  { st with
      pstate := PageState.active,
      events := st.events ++ [PEvent.onInitCalled] }

/-- `FletXPage.did_mount()`: set `_state = MOUNTED`, call
`self._effects.runEffects()`, then `before_on_init()`. -/
def didMount (st : PageSt) : PageSt :=
  beforeOnInit (runEffectsM
    { st with
        pstate := PageState.mounted,
        events := st.events ++ [PEvent.runEffectsInvoked] })

/-- `FletXPage._cleanup_subscriptions()`: dispose every subscription in
`_reactive_subscriptions`, then clear the list. -/
def cleanupSubscriptions (st : PageSt) : PageSt :=
  { st with events := st.events ++ st.subs.map PEvent.obsDisposed, subs := [] }

/-- `FletXPage.did_unmount()`: set `_state = DISPOSED`, call
`self._effects.dispose()`, dispose controllers (none in these scenarios),
clean up subscriptions, and call the `on_destroy` hook. -/
def didUnmount (st : PageSt) : PageSt :=
  let st1 := disposeManagerM
    { st with
        pstate := PageState.disposed,
        events := st.events ++ [PEvent.managerDisposeInvoked] }
  let st2 := cleanupSubscriptions st1
  { st2 with events := st2.events ++ [PEvent.onDestroyCalled] }

/-- `FletXPage.will_unmount()`: set `_state = UNMOUNTING`, call the
`on_destroy` hook, then call `did_unmount()`. -/
def willUnmount (st : PageSt) : PageSt :=
  didUnmount
    { st with
        pstate := PageState.unmounting,
        events := st.events ++ [PEvent.onDestroyCalled] }

/-- `FletXPage.dispose()`: call `will_unmount()`, then call `did_unmount()`
again, delete the DI registration (not observable here) and clear the
handler tables. -/
def pageDispose (st : PageSt) : PageSt :=
  let st1 := didUnmount (willUnmount st)
  { st1 with handlers := [] }

/-- Number of `cbRun` events (watched-callback invocations) in a history. -/
def countCbRun (evs : List PEvent) : Nat :=
  evs.countP (fun e => match e with | PEvent.cbRun _ => true | _ => false)

end PageModel

namespace PageModel

/-- A concrete mounted page used to evaluate the page-layer theorems: state
`ACTIVE` with two registered error handlers, the first of which raises. -/
def sampleMountedPage : PageSt :=
  { freshPage with
      pstate := PageState.active,
      handlers := [(0, true), (1, false)] }

end PageModel

namespace RxModel

theorem runSub_subs (w : RxWorld) (s : Sub) : (runSub w s).subs = w.subs := by
  cases s with
  | mk oid act => cases act <;> rfl

theorem runSub_value (w : RxWorld) (s : Sub) : (runSub w s).value = w.value := by
  cases s with
  | mk oid act => cases act <;> rfl

theorem runSub_invoked (w : RxWorld) (s : Sub) :
    (runSub w s).invoked = w.invoked ++ [s.oid] := by
  cases s with
  | mk oid act => cases act <;> rfl

theorem notifyAll_subs (l : List Sub) (w : RxWorld) :
    (notifyAll l w).subs = w.subs := by
  induction l generalizing w with
  | nil => rfl
  | cons s rest ih =>
      simp only [notifyAll]
      by_cases h : s ∈ w.subs
      · simp [h, ih, runSub_subs]
      · simp [h, ih]

theorem notifyAll_value (l : List Sub) (w : RxWorld) :
    (notifyAll l w).value = w.value := by
  induction l generalizing w with
  | nil => rfl
  | cons s rest ih =>
      simp only [notifyAll]
      by_cases h : s ∈ w.subs
      · simp [h, ih, runSub_value]
      · simp [h, ih]

theorem notifyAll_invoked (l : List Sub) (w : RxWorld)
    (hmem : ∀ s ∈ l, s ∈ w.subs) :
    (notifyAll l w).invoked = w.invoked ++ l.map Sub.oid := by
  induction l generalizing w with
  | nil => simp [notifyAll]
  | cons s rest ih =>
      have hs : s ∈ w.subs := hmem s (by simp)
      simp only [notifyAll, if_pos hs]
      rw [ih]
      · simp [runSub_invoked]
      · intro t ht
        rw [runSub_subs]
        exact hmem t (by simp [ht])

theorem rxSet_subs (w : RxWorld) (v : Int) : (rxSet w v).subs = w.subs := by
  simp [rxSet, notifyAll_subs]

theorem rxSet_value (w : RxWorld) (v : Int) : (rxSet w v).value = v := by
  simp [rxSet, notifyAll_value]

theorem rxSet_invoked (w : RxWorld) (v : Int) :
    (rxSet w v).invoked = w.invoked ++ w.subs.map Sub.oid := by
  have h := notifyAll_invoked w.subs
    { w with value := v, version := w.version + 1 } (fun _ hs => hs)
  simpa [rxSet] using h

theorem count_oid_zero (o : Nat) (l : List Sub) (h : ∀ s ∈ l, s.oid ≠ o) :
    (l.map Sub.oid).count o = 0 := by
  rw [List.count_eq_zero]
  intro hmem
  obtain ⟨s, hs, hso⟩ := List.mem_map.mp hmem
  exact h s hs hso

theorem foldl_rxSet_count (o : Nat) (vs : List Int) (w : RxWorld)
    (h : ∀ s ∈ w.subs, s.oid ≠ o) :
    (vs.foldl rxSet w).invoked.count o = w.invoked.count o := by
  induction vs generalizing w with
  | nil => rfl
  | cons v rest ih =>
      simp only [List.foldl_cons]
      rw [ih]
      · rw [rxSet_invoked, List.count_append, count_oid_zero o w.subs h]
        simp
      · intro s hs
        rw [rxSet_subs] at hs
        exact h s hs

/-- C1: for every reactive value `r` with current value `v` (given by the
environment), `track` of the computation that reads `r` and returns its
value plus one yields the pair `(v + 1, deps)` where the dependency set
`deps` contains exactly the reactive values read: `r` is a member and no
reactive value that was not read is a member. -/
theorem tracker_records_exact_dependencies (env : Nat → Int) (r : Nat)
    (stk : TrackStack) :
    (track env (compReadPlusOne r) stk).1 = (env r + 1, [r]) ∧
    r ∈ (track env (compReadPlusOne r) stk).1.2 ∧
    (∀ s : Nat, s ≠ r → s ∉ (track env (compReadPlusOne r) stk).1.2) := by
  refine ⟨rfl, ?_, ?_⟩
  · show r ∈ [r]
    simp
  · intro s hs
    show s ∉ [r]
    simp [hs]

/-- Evaluation of `tracker_records_exact_dependencies` at a concrete
environment and reactive id. -/
theorem tracker_records_exact_dependencies_inst :
    (track (fun _ => (5 : Int)) (compReadPlusOne 7) []).1 = (6, [7]) ∧
    7 ∈ (track (fun _ => (5 : Int)) (compReadPlusOne 7) []).1.2 ∧
    (∀ s : Nat, s ≠ 7 →
      s ∉ (track (fun _ => (5 : Int)) (compReadPlusOne 7) []).1.2) :=
  tracker_records_exact_dependencies (fun _ => (5 : Int)) 7 []

/-- C2: for every reactive container and write, `get()` immediately after
`set(v)` returns `v`; and the concrete scenario of the spec holds: a
container created with `10` reads `10`, after `set(20)` it reads `20`, and
a listener registered before `set(30)` observes `30` as the container's
value at notification time (the last element appended to `called` is
`30`). -/
theorem reactive_get_after_set :
    (∀ (w : RxWorld) (v : Int), rxGet (rxSet w v) = v) ∧
    rxGet (mkReactive 10) = 10 ∧
    rxGet (rxSet (mkReactive 10) 20) = 20 ∧
    (rxSet (listen (rxSet (mkReactive 10) 20) Act.appendValue).1 30).called.getLast?
      = some 30 := by
  refine ⟨?_, by decide, by decide, by decide⟩
  intro w v
  simp [rxGet, rxSet_value]

/-- C3: for an observer obtained by `listen(cb)` on any well-formed reactive
container (every existing subscriber id is below the fresh-id counter):
before disposal a `set` triggers the callback (its invocation count goes up
by one); after `dispose()` no sequence of subsequent `set` calls ever
invokes the callback again; and calling `dispose()` a second time is a
no-op. -/
theorem observer_dispose_permanent (w : RxWorld) (a : Act) (v : Int)
    (vs : List Int) (hwf : ∀ s ∈ w.subs, s.oid < w.nextId) :
    invokedCount (rxSet (listen w a).1 v) (listen w a).2
      = invokedCount (listen w a).1 (listen w a).2 + 1 ∧
    invokedCount (vs.foldl rxSet (disposeObs (listen w a).1 (listen w a).2))
        (listen w a).2
      = invokedCount (disposeObs (listen w a).1 (listen w a).2) (listen w a).2 ∧
    disposeObs (disposeObs (listen w a).1 (listen w a).2) (listen w a).2
      = disposeObs (listen w a).1 (listen w a).2 := by
  have hfresh : ∀ s ∈ w.subs, s.oid ≠ w.nextId := by
    intro s hs
    exact Nat.ne_of_lt (hwf s hs)
  refine ⟨?_, ?_, ?_⟩
  · show ((rxSet (listen w a).1 v).invoked.count w.nextId) = _
    rw [rxSet_invoked, List.count_append]
    show _ = (listen w a).1.invoked.count w.nextId + 1
    congr 1
    show ((w.subs ++ [Sub.mk w.nextId a]).map Sub.oid).count w.nextId = 1
    rw [List.map_append, List.count_append, count_oid_zero _ _ hfresh]
    simp
  · apply foldl_rxSet_count
    intro s hs
    simp only [disposeObs, listen, List.mem_filter] at hs
    exact of_decide_eq_true hs.2
  · simp only [disposeObs, List.filter_filter]
    congr 1
    apply List.filter_congr
    intro s _
    simp

/-- Evaluation of `observer_dispose_permanent` on the concrete scenario of
the observer test: a container created with `0`, a listener, a write of
`1`, disposal, then writes of `2` and `3`. -/
theorem observer_dispose_permanent_inst :
    (∀ s ∈ (mkReactive 0).subs, s.oid < (mkReactive 0).nextId) ∧
    (invokedCount (rxSet (listen (mkReactive 0) Act.appendValue).1 1)
        (listen (mkReactive 0) Act.appendValue).2
      = invokedCount (listen (mkReactive 0) Act.appendValue).1
          (listen (mkReactive 0) Act.appendValue).2 + 1 ∧
    invokedCount
        (([2, 3] : List Int).foldl rxSet
          (disposeObs (listen (mkReactive 0) Act.appendValue).1
            (listen (mkReactive 0) Act.appendValue).2))
        (listen (mkReactive 0) Act.appendValue).2
      = invokedCount
          (disposeObs (listen (mkReactive 0) Act.appendValue).1
            (listen (mkReactive 0) Act.appendValue).2)
          (listen (mkReactive 0) Act.appendValue).2 ∧
    disposeObs
        (disposeObs (listen (mkReactive 0) Act.appendValue).1
          (listen (mkReactive 0) Act.appendValue).2)
        (listen (mkReactive 0) Act.appendValue).2
      = disposeObs (listen (mkReactive 0) Act.appendValue).1
          (listen (mkReactive 0) Act.appendValue).2) :=
  ⟨by decide,
   observer_dispose_permanent (mkReactive 0) Act.appendValue 1 [2, 3] (by decide)⟩

end RxModel

namespace PageModel

theorem handlerRun_mem_handlerEvents (hs : List (Nat × Bool)) (h : Nat × Bool)
    (hmem : h ∈ hs) : PEvent.handlerRun h.1 ∈ handlerEvents hs := by
  induction hs with
  | nil => cases hmem
  | cons x rest ih =>
      rcases List.mem_cons.mp hmem with heq | htail
      · subst heq
        simp [handlerEvents]
      · simp [handlerEvents, ih htail]

theorem safeCallback_raises (st : PageSt) (cb : Cb)
    (hm : isMountedB st = true) (hr : cb.raises = true) :
    safeCallback st cb =
      ({ st with events := st.events ++ PEvent.cbRun cb.cid ::
          PEvent.errorLogged :: handlerEvents st.handlers }, none) := by
  cases st
  simp [safeCallback, invokeCb, triggerErrorHandlers, hm, hr]

/-- C4: for every mounted page and every watched callback that raises when
invoked, `_safe_callback` catches the exception at the invocation boundary,
logs it, forwards it to every registered error handler (a handler that
itself raises does not prevent the remaining handlers from running - every
handler appears in the event history regardless of the raise flags), and
returns `None` instead of propagating the exception to the caller that
triggered the notification. -/
theorem safe_callback_isolates_callback_errors (st : PageSt) (cb : Cb)
    (hm : isMountedB st = true) (hr : cb.raises = true) :
    safeCallback st cb =
      ({ st with events := st.events ++ PEvent.cbRun cb.cid ::
          PEvent.errorLogged :: handlerEvents st.handlers }, none) ∧
    (∀ h ∈ st.handlers, PEvent.handlerRun h.1 ∈ (safeCallback st cb).1.events) := by
  refine ⟨safeCallback_raises st cb hm hr, ?_⟩
  intro h hmem
  rw [safeCallback_raises st cb hm hr]
  simp only [List.mem_append, List.mem_cons]
  right; right; right
  exact handlerRun_mem_handlerEvents st.handlers h hmem

/-- Evaluation of `safe_callback_isolates_callback_errors` on the concrete
mounted page with a raising first handler and a raising callback. -/
theorem safe_callback_isolates_callback_errors_inst :
    (isMountedB sampleMountedPage = true ∧ (Cb.mk 5 true).raises = true) ∧
    (safeCallback sampleMountedPage (Cb.mk 5 true) =
      ({ sampleMountedPage with
          events := sampleMountedPage.events ++ PEvent.cbRun (Cb.mk 5 true).cid ::
            PEvent.errorLogged :: handlerEvents sampleMountedPage.handlers }, none) ∧
    (∀ h ∈ sampleMountedPage.handlers,
      PEvent.handlerRun h.1 ∈ (safeCallback sampleMountedPage (Cb.mk 5 true)).1.events)) :=
  ⟨⟨rfl, rfl⟩,
   safe_callback_isolates_callback_errors sampleMountedPage (Cb.mk 5 true) rfl rfl⟩

/-- C5 (code bug): mounting a fresh page and then calling
`FletXPage.dispose()` once invokes the effect manager's `runEffects()`
exactly once, but - because `dispose()` calls `will_unmount()` followed by
`did_unmount()` while `will_unmount()` itself already ends by calling
`did_unmount()` - the effect manager's `dispose()` is invoked twice and the
`on_destroy` hook three times, contradicting the claimed
exactly-once teardown. -/
theorem page_dispose_double_teardown :
    (pageDispose (didMount freshPage)).events =
      [PEvent.runEffectsInvoked, PEvent.onInitCalled, PEvent.onDestroyCalled,
       PEvent.managerDisposeInvoked, PEvent.onDestroyCalled,
       PEvent.managerDisposeInvoked, PEvent.onDestroyCalled] ∧
    (pageDispose (didMount freshPage)).events.count PEvent.runEffectsInvoked = 1 ∧
    (pageDispose (didMount freshPage)).events.count PEvent.managerDisposeInvoked = 2 ∧
    (pageDispose (didMount freshPage)).events.count PEvent.onDestroyCalled = 3 :=
  ⟨rfl, by decide, by decide, by decide⟩

theorem safeCallback_not_mounted (st : PageSt) (cb : Cb)
    (hm : isMountedB st = false) : safeCallback st cb = (st, none) := by
  simp [safeCallback, hm]

theorem countCbRun_handlerEvents (hs : List (Nat × Bool)) :
    countCbRun (handlerEvents hs) = 0 := by
  induction hs with
  | nil => rfl
  | cons x rest ih =>
      cases hx : x.2 <;> simp [handlerEvents, countCbRun, hx] <;>
        simpa [countCbRun] using ih

theorem countCbRun_append (l1 l2 : List PEvent) :
    countCbRun (l1 ++ l2) = countCbRun l1 + countCbRun l2 := by
  simp [countCbRun, List.countP_append]

theorem safeCallback_mounted_count (st : PageSt) (cb : Cb)
    (hm : isMountedB st = true) :
    countCbRun (safeCallback st cb).1.events = countCbRun st.events + 1 := by
  cases hr : cb.raises
  · simp [safeCallback, invokeCb, hm, hr, countCbRun_append, countCbRun]
  · rw [safeCallback_raises st cb hm hr]
    simp [countCbRun_append, countCbRun, countCbRun_handlerEvents]
    have h := countCbRun_handlerEvents st.handlers
    simpa [countCbRun] using h

/-- C8: a watched callback is invoked by `_safe_callback` only while the
page state is `MOUNTED` or `ACTIVE`; in every other state the invocation
is silently skipped: the page is left unchanged and `None` is returned
without calling the callback, while in a mounted state the callback is
invoked exactly once. -/
theorem safe_callback_skips_unless_mounted (st : PageSt) (cb : Cb) :
    (isMountedB st = true ↔
      (st.pstate = PageState.mounted ∨ st.pstate = PageState.active)) ∧
    (isMountedB st = false → safeCallback st cb = (st, none)) ∧
    (isMountedB st = true →
      countCbRun (safeCallback st cb).1.events = countCbRun st.events + 1) := by
  refine ⟨?_, safeCallback_not_mounted st cb, safeCallback_mounted_count st cb⟩
  cases h : st.pstate <;> simp [isMountedB, h]

/-- Evaluation of `safe_callback_skips_unless_mounted` at a fresh
(initializing, hence unmounted) page and a concrete callback. -/
theorem safe_callback_skips_unless_mounted_inst :
    ((isMountedB freshPage = true ↔
      (freshPage.pstate = PageState.mounted ∨ freshPage.pstate = PageState.active)) ∧
    (isMountedB freshPage = false → safeCallback freshPage (Cb.mk 0 false) = (freshPage, none)) ∧
    (isMountedB freshPage = true →
      countCbRun (safeCallback freshPage (Cb.mk 0 false)).1.events
        = countCbRun freshPage.events + 1)) ∧
    safeCallback freshPage (Cb.mk 0 false) = (freshPage, none) :=
  ⟨safe_callback_skips_unless_mounted freshPage (Cb.mk 0 false),
   (safe_callback_skips_unless_mounted freshPage (Cb.mk 0 false)).2.1 rfl⟩

end PageModel

namespace PageModel

/-- C6: for every effect registered through
`add_effect(body, [], cleanupA)` on a page taken through its lifecycle -
whether registered before mounting (run by the manager's bulk `run()` at
mount) or after mounting (run immediately at registration) - disposing the
owner invokes `cleanupA` exactly once, and strictly after the body has
run: in the event history restricted to the body-run and cleanup-run
events, the body appears first and each appears exactly once, even though
the page's `dispose()` reaches the effect manager's teardown twice. -/
theorem effect_cleanup_once_after_body (n c : Nat) :
    ((pageDispose (didMount (addEffect freshPage n false
        (some (CleanupDesc.userCleanup c)) (some [])))).events.filter
      (fun e => e == PEvent.bodyRun n || e == PEvent.cleanupRun c))
      = [PEvent.bodyRun n, PEvent.cleanupRun c] ∧
    ((pageDispose (addEffect (didMount freshPage) n false
        (some (CleanupDesc.userCleanup c)) (some []))).events.filter
      (fun e => e == PEvent.bodyRun n || e == PEvent.cleanupRun c))
      = [PEvent.bodyRun n, PEvent.cleanupRun c] := by
  constructor
  · have h : (pageDispose (didMount (addEffect freshPage n false
        (some (CleanupDesc.userCleanup c)) (some [])))).events =
        [PEvent.runEffectsInvoked, PEvent.bodyRun n, PEvent.onInitCalled,
         PEvent.onDestroyCalled, PEvent.managerDisposeInvoked, PEvent.cleanupRun c,
         PEvent.onDestroyCalled, PEvent.managerDisposeInvoked,
         PEvent.onDestroyCalled] := rfl
    rw [h]; simp
  · have h : (pageDispose (addEffect (didMount freshPage) n false
        (some (CleanupDesc.userCleanup c)) (some []))).events =
        [PEvent.runEffectsInvoked, PEvent.onInitCalled, PEvent.bodyRun n,
         PEvent.onDestroyCalled, PEvent.managerDisposeInvoked, PEvent.cleanupRun c,
         PEvent.onDestroyCalled, PEvent.managerDisposeInvoked,
         PEvent.onDestroyCalled] := rfl
    rw [h]; simp

/-- C9: for an effect whose `effect_fn` raises when the wrapped
`enhanced_effect` body runs, the cleanup function is never registered -
after the mount that runs the body, every effect record in the manager
carries no captured cleanup and nothing is left pending - and therefore the
cleanup is never invoked: the full lifecycle's event history contains no
run of cleanup `c`, only the raised body. -/
theorem effect_raising_body_skips_cleanup (n c : Nat) :
    (didMount (addEffect freshPage n true
        (some (CleanupDesc.userCleanup c)) (some []))).effectsDone.all
      (fun e => e.cleanup == none) = true ∧
    (didMount (addEffect freshPage n true
        (some (CleanupDesc.userCleanup c)) (some []))).pending = [] ∧
    ((pageDispose (didMount (addEffect freshPage n true
        (some (CleanupDesc.userCleanup c)) (some [])))).events.filter
      (fun e => e == PEvent.cleanupRun c)) = [] ∧
    ((pageDispose (didMount (addEffect freshPage n true
        (some (CleanupDesc.userCleanup c)) (some [])))).events.filter
      (fun e => e == PEvent.bodyRaised n)) = [PEvent.bodyRaised n] := by
  refine ⟨rfl, rfl, ?_, ?_⟩
  · have h : (pageDispose (didMount (addEffect freshPage n true
        (some (CleanupDesc.userCleanup c)) (some [])))).events =
        [PEvent.runEffectsInvoked, PEvent.bodyRaised n, PEvent.onInitCalled,
         PEvent.onDestroyCalled, PEvent.managerDisposeInvoked,
         PEvent.onDestroyCalled, PEvent.managerDisposeInvoked,
         PEvent.onDestroyCalled] := rfl
    rw [h]; simp
  · have h : (pageDispose (didMount (addEffect freshPage n true
        (some (CleanupDesc.userCleanup c)) (some [])))).events =
        [PEvent.runEffectsInvoked, PEvent.bodyRaised n, PEvent.onInitCalled,
         PEvent.onDestroyCalled, PEvent.managerDisposeInvoked,
         PEvent.onDestroyCalled, PEvent.managerDisposeInvoked,
         PEvent.onDestroyCalled] := rfl
    rw [h]; simp

end PageModel

namespace PageModel

theorem safeCallback_pstate (st : PageSt) (cb : Cb) :
    (safeCallback st cb).1.pstate = st.pstate := by
  cases hm : isMountedB st
  · simp [safeCallback, hm]
  · cases hr : cb.raises <;>
      simp [safeCallback, invokeCb, triggerErrorHandlers, hm, hr]

theorem safeCallback_subs (st : PageSt) (cb : Cb) :
    (safeCallback st cb).1.subs = st.subs := by
  cases hm : isMountedB st
  · simp [safeCallback, hm]
  · cases hr : cb.raises <;>
      simp [safeCallback, invokeCb, triggerErrorHandlers, hm, hr]

theorem safeCallback_nextObs (st : PageSt) (cb : Cb) :
    (safeCallback st cb).1.nextObs = st.nextObs := by
  cases hm : isMountedB st
  · simp [safeCallback, hm]
  · cases hr : cb.raises <;>
      simp [safeCallback, invokeCb, triggerErrorHandlers, hm, hr]

theorem addCleanup_subs (st : PageSt) (c : CleanupDesc) :
    (addCleanup st c).subs = st.subs := by
  cases hs : st.started <;> simp [addCleanup, useEffect, runBody, hs]

theorem addCleanup_nextObs (st : PageSt) (c : CleanupDesc) :
    (addCleanup st c).nextObs = st.nextObs := by
  cases hs : st.started <;> simp [addCleanup, useEffect, runBody, hs]

theorem addCleanup_events (st : PageSt) (c : CleanupDesc) :
    (addCleanup st c).events = st.events := by
  cases hs : st.started <;> simp [addCleanup, useEffect, runBody, hs]

theorem watch_listen_snd (st : PageSt) (obj : WObj) (cb : Cb) (imm : Bool)
    (h : obj.hasListen = true) :
    (watch st obj cb imm).2 = some st.nextObs := by
  cases imm <;> simp [watch, h, safeCallback_nextObs]

theorem watch_listen_subs (st : PageSt) (obj : WObj) (cb : Cb) (imm : Bool)
    (h : obj.hasListen = true) :
    (watch st obj cb imm).1.subs = st.subs ++ [st.nextObs] := by
  cases imm <;>
    simp [watch, h, addCleanup_subs, safeCallback_subs, safeCallback_nextObs]

theorem watch_listen_events_no_imm (st : PageSt) (obj : WObj) (cb : Cb)
    (h : obj.hasListen = true) :
    (watch st obj cb false).1.events = st.events := by
  simp [watch, h, addCleanup_events]

theorem watch_listen_count_imm (st : PageSt) (obj : WObj) (cb : Cb)
    (h : obj.hasListen = true) (hm : isMountedB st = true) :
    countCbRun (watch st obj cb true).1.events = countCbRun st.events + 1 := by
  simp [watch, h, addCleanup_events]
  exact safeCallback_mounted_count st cb hm

theorem watch_no_listen (st : PageSt) (obj : WObj) (cb : Cb) (imm : Bool)
    (h : obj.hasListen = false) :
    watch st obj cb imm =
      ({ st with events := st.events ++ [PEvent.warnNotReactive] }, none) := by
  simp [watch, h]

theorem go_length_filter (cb : Cb) (imm : Bool) (objs : List WObj) :
    ∀ (st : PageSt) (acc : List Nat),
    (watchMultipleGo cb imm objs st acc).2.length
      = acc.length + (objs.filter (fun o => o.hasListen)).length := by
  induction objs with
  | nil => intro st acc; simp [watchMultipleGo]
  | cons obj rest ih =>
      intro st acc
      cases h : obj.hasListen
      · rw [watchMultipleGo, watch_no_listen st obj cb _ h]
        simp [h, ih]
      · rw [watchMultipleGo, watch_listen_snd st obj cb _ h]
        simp [h, ih]
        omega

theorem go_countCb_keep (cb : Cb) (imm : Bool) (objs : List WObj) :
    ∀ (st : PageSt) (acc : List Nat), acc ≠ [] →
    (∀ o ∈ objs, o.hasListen = true) →
    countCbRun (watchMultipleGo cb imm objs st acc).1.events
      = countCbRun st.events := by
  induction objs with
  | nil => intro st acc _ _; simp [watchMultipleGo]
  | cons obj rest ih =>
      intro st acc hacc hall
      have h : obj.hasListen = true := hall obj (by simp)
      have hae : acc.isEmpty = false := by
        cases acc with
        | nil => exact absurd rfl hacc
        | cons a as => rfl
      rw [watchMultipleGo, watch_listen_snd st obj cb _ h]
      simp only
      rw [ih _ _ (by simp) (fun o ho => hall o (by simp [ho]))]
      rw [hae, Bool.and_false, watch_listen_events_no_imm st obj cb h]

theorem go_mem_subs (cb : Cb) (imm : Bool) (objs : List WObj) :
    ∀ (st : PageSt) (acc : List Nat),
    (∀ x ∈ acc, x ∈ st.subs) →
    ∀ x ∈ (watchMultipleGo cb imm objs st acc).2,
      x ∈ (watchMultipleGo cb imm objs st acc).1.subs := by
  induction objs with
  | nil =>
      intro st acc hacc x hx
      simp only [watchMultipleGo] at hx ⊢
      exact hacc x hx
  | cons obj rest ih =>
      intro st acc hacc x hx
      cases h : obj.hasListen
      · rw [watchMultipleGo, watch_no_listen st obj cb _ h] at hx ⊢
        refine ih _ _ ?_ x hx
        intro y hy
        simpa using hacc y hy
      · rw [watchMultipleGo, watch_listen_snd st obj cb _ h] at hx ⊢
        refine ih _ _ ?_ x hx
        intro y hy
        rw [watch_listen_subs st obj cb _ h]
        have hy12 : y ∈ acc ∨ y = st.nextObs := by simpa using hy
        rcases hy12 with hy1 | hy2
        · exact List.mem_append_left _ (hacc y hy1)
        · subst hy2
          exact List.mem_append_right _ (by simp)

/-- C7: on a mounted page, watching a non-empty list of reactive objects
(each exposing `listen`) with `watch_multiple(objects, callback,
immediate=True)` invokes the callback immediately exactly once for the
whole batch - exactly one `cbRun` event is added, not one per object -
returns one observer per successfully watched object (so one per object
here), and every returned observer is recorded in the page's
reactive-subscription list built from the repeated `listen` calls. -/
theorem watch_multiple_immediate_once (st : PageSt) (objs : List WObj) (cb : Cb)
    (hm : isMountedB st = true) (hne : objs ≠ [])
    (hall : ∀ o ∈ objs, o.hasListen = true) :
    (watchMultiple st objs cb true).2.length = objs.length ∧
    countCbRun (watchMultiple st objs cb true).1.events
      = countCbRun st.events + 1 ∧
    (∀ x ∈ (watchMultiple st objs cb true).2,
      x ∈ (watchMultiple st objs cb true).1.subs) := by
  refine ⟨?_, ?_, ?_⟩
  · rw [watchMultiple, go_length_filter]
    simp [List.filter_eq_self.mpr hall]
  · cases objs with
    | nil => exact absurd rfl hne
    | cons obj rest =>
        have h : obj.hasListen = true := hall obj (by simp)
        rw [watchMultiple, watchMultipleGo, watch_listen_snd st obj cb _ h]
        simp only
        rw [go_countCb_keep cb true rest _ _ (by simp)
          (fun o ho => hall o (by simp [ho]))]
        simpa using watch_listen_count_imm st obj cb h hm
  · exact go_mem_subs cb true objs st [] (by simp)

/-- Evaluation of `watch_multiple_immediate_once` on the concrete mounted
page watching two reactive objects. -/
theorem watch_multiple_immediate_once_inst :
    (isMountedB sampleMountedPage = true ∧
     ([WObj.mk true, WObj.mk true] : List WObj) ≠ [] ∧
     (∀ o ∈ ([WObj.mk true, WObj.mk true] : List WObj), o.hasListen = true)) ∧
    ((watchMultiple sampleMountedPage [WObj.mk true, WObj.mk true]
        (Cb.mk 7 false) true).2.length
      = ([WObj.mk true, WObj.mk true] : List WObj).length ∧
     countCbRun (watchMultiple sampleMountedPage [WObj.mk true, WObj.mk true]
        (Cb.mk 7 false) true).1.events
      = countCbRun sampleMountedPage.events + 1 ∧
     (∀ x ∈ (watchMultiple sampleMountedPage [WObj.mk true, WObj.mk true]
        (Cb.mk 7 false) true).2,
      x ∈ (watchMultiple sampleMountedPage [WObj.mk true, WObj.mk true]
        (Cb.mk 7 false) true).1.subs)) :=
  ⟨⟨rfl, by decide, by decide⟩,
   watch_multiple_immediate_once sampleMountedPage [WObj.mk true, WObj.mk true]
     (Cb.mk 7 false) rfl (by decide) (by decide)⟩

/-- C10: for every object that does not expose a `listen` attribute,
`watch` logs a warning and returns `None` without raising, leaving the
page's reactive-subscription list unchanged and registering no cleanup
(no effect record and nothing pending is added); and `watch_multiple`
omits such objects from the returned observer list, returning exactly one
observer per object that does expose `listen`. -/
theorem watch_without_listen_noop (st : PageSt) (obj : WObj) (cb : Cb)
    (imm : Bool) (h : obj.hasListen = false) :
    watch st obj cb imm =
      ({ st with events := st.events ++ [PEvent.warnNotReactive] }, none) ∧
    (watch st obj cb imm).1.subs = st.subs ∧
    (watch st obj cb imm).1.effectsDone = st.effectsDone ∧
    (watch st obj cb imm).1.pending = st.pending ∧
    (∀ (objs : List WObj) (imm2 : Bool),
      (watchMultiple st objs cb imm2).2.length
        = (objs.filter (fun o => o.hasListen)).length) := by
  refine ⟨watch_no_listen st obj cb imm h, ?_, ?_, ?_, ?_⟩
  · rw [watch_no_listen st obj cb imm h]
  · rw [watch_no_listen st obj cb imm h]
  · rw [watch_no_listen st obj cb imm h]
  · intro objs imm2
    rw [watchMultiple, go_length_filter]
    simp

/-- Evaluation of `watch_without_listen_noop` at a fresh page and a
non-reactive object. -/
theorem watch_without_listen_noop_inst :
    (WObj.mk false).hasListen = false ∧
    (watch freshPage (WObj.mk false) (Cb.mk 0 false) true =
      ({ freshPage with
          events := freshPage.events ++ [PEvent.warnNotReactive] }, none) ∧
    (watch freshPage (WObj.mk false) (Cb.mk 0 false) true).1.subs
      = freshPage.subs ∧
    (watch freshPage (WObj.mk false) (Cb.mk 0 false) true).1.effectsDone
      = freshPage.effectsDone ∧
    (watch freshPage (WObj.mk false) (Cb.mk 0 false) true).1.pending
      = freshPage.pending ∧
    (∀ (objs : List WObj) (imm2 : Bool),
      (watchMultiple freshPage objs (Cb.mk 0 false) imm2).2.length
        = (objs.filter (fun o => o.hasListen)).length)) :=
  ⟨rfl, watch_without_listen_noop freshPage (WObj.mk false) (Cb.mk 0 false) true rfl⟩

end PageModel
